import Mathlib

/-!
Shallow embedding of the inventory / pickup subsystem of the dungeon-crawler
repository (src/src/inventory.ts and the item-pickup-manager module).

Conventions of the embedding:
* JS numbers used as item counts and quantities are embedded as `Nat`
  (every call site in the repository passes a non-negative integer, and the
  pickup spawner clamps with `Math.max(1, Math.floor(q))`); world coordinates
  are embedded as `ℚ`.
* The slot array `(InventoryItem | null)[]` becomes
  `List (Option InventoryItem)`; `null` becomes `none`.
* Mutation of the array inside `addItem` becomes explicit state passing:
  each pass returns the updated slot list together with the updated
  `remaining` counter.
* The DOM rendering (`render`, `createUI`, `toggleVisibility`) only redraws
  the overlay from the slot data and never writes it; it is not part of the
  logical model.  Likewise the sprite/material/texture handling of the pickup
  manager is purely visual and is not modelled; a scene node is represented
  by the pickup record it belongs to.
-/

namespace DungeonInv

/-- The `ItemType` union type of src/src/inventory.ts
(gold | potion | key). -/
inductive ItemType : Type
  | gold
  | potion
  | key
  deriving DecidableEq, Repr

/-- The runtime string value of an `ItemType` (TS union members are strings). -/
def ItemType.str : ItemType → String
  | .gold => "gold"
  | .potion => "potion"
  | .key => "key"

/-- An item-definition record: the shape of the entries of
`ITEM_DEFINITIONS` (an `InventoryItem` without its count field). -/
structure ItemDef where
  type : ItemType
  maxStack : Nat
  icon : String
  name : String
  description : String
  deriving DecidableEq, Repr

/-- The `ITEM_DEFINITIONS` catalog of src/src/inventory.ts, keyed by the
three members of `ItemType`. -/
def ITEM_DEFINITIONS : ItemType → ItemDef
  | .gold =>
      { type := .gold, maxStack := 99, icon := "gold-icon",
        name := "Gold Coin", description := "Currency of the realm." }
  | .potion =>
      { type := .potion, maxStack := 5, icon := "potion-icon",
        name := "Health Potion", description := "Restores 25 HP." }
  | .key =>
      { type := .key, maxStack := 1, icon := "key-icon",
        name := "Dungeon Key", description := "Unlocks a door." }

/-- A stored inventory item (`InventoryItem` of the source: the fields of
the definition plus a count). -/
structure InventoryItem where
  type : ItemType
  count : Nat
  maxStack : Nat
  icon : String
  name : String
  description : String
  deriving DecidableEq, Repr

/-- The slot array of `InventoryManager`: each slot is `null` or an item. -/
abbrev Inventory := List (Option InventoryItem)

/-- The fresh inventory built by the constructor:
`new Array(this.capacity).fill(null)` with `capacity = 10`. -/
def emptyInventory : Inventory := List.replicate 10 none

/-- The item record created by pass 2 of `addItem`: `{ ...def, count: add }`. -/
def mkStored (d : ItemDef) (cnt : Nat) : InventoryItem :=
  { type := d.type, count := cnt, maxStack := d.maxStack,
    icon := d.icon, name := d.name, description := d.description }

/-- Pass 1 of `addItem` (try to stack with existing items): walk the slots in
order; a non-null slot of the same type whose count is below its max stack
absorbs `min (maxStack - count) remaining`; the loop breaks as soon as
`remaining` reaches 0.  Returns the updated slots and the final `remaining`. -/
def stackPass (t : ItemType) : Inventory → Nat → Inventory × Nat
  | [], remaining => ([], remaining)
  | none :: rest, remaining =>
      let p := stackPass t rest remaining
      (none :: p.1, p.2)
  | some it :: rest, remaining =>
      if it.type = t ∧ it.count < it.maxStack then
        let add := min (it.maxStack - it.count) remaining
        let it' : InventoryItem := { it with count := it.count + add }
        let remaining' := remaining - add
        if remaining' = 0 then
          (some it' :: rest, 0)
        else
          let p := stackPass t rest remaining'
          (some it' :: p.1, p.2)
      else
        let p := stackPass t rest remaining
        (some it :: p.1, p.2)

/-- Pass 2 of `addItem` (if still remaining, add to empty slots): each null
slot receives a fresh stack of `min d.maxStack remaining`; the loop breaks as
soon as `remaining` reaches 0. -/
def fillPass (d : ItemDef) : Inventory → Nat → Inventory × Nat
  | [], remaining => ([], remaining)
  | some it :: rest, remaining =>
      let p := fillPass d rest remaining
      (some it :: p.1, p.2)
  | none :: rest, remaining =>
      let add := min d.maxStack remaining
      let remaining' := remaining - add
      if remaining' = 0 then
        (some (mkStored d add) :: rest, 0)
      else
        let p := fillPass d rest remaining'
        (some (mkStored d add) :: p.1, p.2)

/-- The slot-and-remaining part of `InventoryManager.addItem`: pass 1, then
pass 2 when something is still unplaced. -/
def addItemCore (t : ItemType) (count : Nat) (items : Inventory) :
    Inventory × Nat :=
  let p1 := stackPass t items count
  if p1.2 > 0 then fillPass (ITEM_DEFINITIONS t) p1.1 p1.2 else p1

/-- `InventoryManager.addItem(type, count)`: two-pass placement, returning
`remaining === 0` (true iff the whole requested quantity was placed) together
with the updated slots.  (The trailing `this.render()` only redraws the
DOM overlay.) -/
def addItem (t : ItemType) (count : Nat) (items : Inventory) :
    Bool × Inventory :=
  let p := addItemCore t count items
  (decide (p.2 = 0), p.1)

/-- `InventoryManager.isFull()`:
`items.every(item => item !== null && item.count >= item.maxStack)`. -/
def isFull (items : Inventory) : Bool :=
  items.all fun o =>
    match o with
    | none => false
    | some it => decide (it.maxStack ≤ it.count)

/-! ### Runtime semantics of `addItem` for an arbitrary string identifier

The declared parameter type of `addItem` is the union `ItemType`, but at
runtime the argument is an arbitrary string.  For a string outside the three
union members, `ITEM_DEFINITIONS[type]` evaluates to `undefined`; pass 1
compares `item.type === type`, which is an ordinary string comparison; pass 2
reads `def.maxStack`, which on `undefined` throws a TypeError.  The thrown
exception is modelled as `Except.error ()`. -/

/-- The runtime member lookup `ITEM_DEFINITIONS[type]` for an arbitrary
string key. -/
def lookupDef (typeId : String) : Option ItemDef :=
  if typeId = "gold" then some (ITEM_DEFINITIONS .gold)
  else if typeId = "potion" then some (ITEM_DEFINITIONS .potion)
  else if typeId = "key" then some (ITEM_DEFINITIONS .key)
  else none

/-- Pass 1 of `addItem` under an arbitrary string identifier: the type test
`item.type === type` is a string comparison.  Pass 1 reads no field of the
(possibly undefined) definition, so it never throws. -/
def stackPassRaw (typeId : String) : Inventory → Nat → Inventory × Nat
  | [], remaining => ([], remaining)
  | none :: rest, remaining =>
      let p := stackPassRaw typeId rest remaining
      (none :: p.1, p.2)
  | some it :: rest, remaining =>
      if it.type.str = typeId ∧ it.count < it.maxStack then
        let add := min (it.maxStack - it.count) remaining
        let it' : InventoryItem := { it with count := it.count + add }
        let remaining' := remaining - add
        if remaining' = 0 then
          (some it' :: rest, 0)
        else
          let p := stackPassRaw typeId rest remaining'
          (some it' :: p.1, p.2)
      else
        let p := stackPassRaw typeId rest remaining
        (some it :: p.1, p.2)

/-- Pass 2 of `addItem` under an arbitrary string identifier: on the first
null slot the code reads `def.maxStack`; when the definition lookup produced
`undefined` this throws (`Except.error ()`). -/
def fillPassRaw (d : Option ItemDef) : Inventory → Nat → Except Unit (Inventory × Nat)
  | [], remaining => .ok ([], remaining)
  | some it :: rest, remaining =>
      match fillPassRaw d rest remaining with
      | .error e => .error e
      | .ok p => .ok (some it :: p.1, p.2)
  | none :: rest, remaining =>
      match d with
      | none => .error ()
      | some dd =>
          let add := min dd.maxStack remaining
          let remaining' := remaining - add
          if remaining' = 0 then
            .ok (some (mkStored dd add) :: rest, 0)
          else
            match fillPassRaw d rest remaining' with
            | .error e => .error e
            | .ok p => .ok (some (mkStored dd add) :: p.1, p.2)

/-- `InventoryManager.addItem` invoked with an arbitrary string identifier:
runtime JS semantics including the possible TypeError of pass 2. -/
def addItemRaw (typeId : String) (count : Nat) (items : Inventory) :
    Except Unit (Bool × Inventory) :=
  let d := lookupDef typeId
  let p1 := stackPassRaw typeId items count
  if p1.2 > 0 then
    match fillPassRaw d p1.1 p1.2 with
    | .error e => .error e
    | .ok p2 => .ok (decide (p2.2 = 0), p2.1)
  else .ok (decide (p1.2 = 0), p1.1)

/-! ### Derived inventory quantities used by the statements -/

/-- The contribution of one slot to the held total of type `t`. -/
def slotCountOf (t : ItemType) : Option InventoryItem → Nat
  | none => 0
  | some it => if it.type = t then it.count else 0

/-- Sum of counts across all slots holding type `t`. -/
def totalOf (t : ItemType) (s : Inventory) : Nat :=
  (s.map (slotCountOf t)).sum

/-- Number of occupied slots holding type `t`. -/
def occupiedOf (t : ItemType) (s : Inventory) : Nat :=
  s.countP fun o =>
    match o with
    | none => false
    | some it => decide (it.type = t)

/-- Well-formedness of one slot: an occupied slot carries the max-stack size
of its item definition and a count between 1 and that bound. -/
def slotBounds : Option InventoryItem → Prop
  | none => True
  | some it =>
      it.maxStack = (ITEM_DEFINITIONS it.type).maxStack ∧
      1 ≤ it.count ∧ it.count ≤ it.maxStack

/-- The inventory is saturated for type `t`: every slot is occupied, and every
slot holding `t` is at (or beyond) its max stack.  This is exactly the state
in which neither pass of `addItem t` can place anything. -/
def saturatedFor (t : ItemType) (s : Inventory) : Prop :=
  ∀ o ∈ s, ∃ it, o = some it ∧ (it.type = t → it.maxStack ≤ it.count)

/-- Run a sequence of `addItem` calls, keeping only the slot state. -/
def runAdds (calls : List (ItemType × Nat)) (s : Inventory) : Inventory :=
  calls.foldl (fun acc c => (addItem c.1 c.2 acc).2) s

/-- Total quantity requested for type `t` across a sequence of calls. -/
def requestedOf (t : ItemType) (calls : List (ItemType × Nat)) : Nat :=
  (calls.map fun c => if c.1 = t then c.2 else 0).sum

/-- A full stack of type `t` as created by `addItem`. -/
def fullStackItem (t : ItemType) : InventoryItem :=
  mkStored (ITEM_DEFINITIONS t) (ITEM_DEFINITIONS t).maxStack

/-- `cap` slots, each a full stack of type `t`. -/
def fullStackedInv (cap : Nat) (t : ItemType) : Inventory :=
  List.replicate cap (some (fullStackItem t))

/-! ### The item pickup manager

The pickup-manager module imports `ITEM_DB` (a string-keyed catalog of
`ItemTemplate` records) and `tryAddById` from the inventory module, neither of
which is among the source files; both are taken as parameters: the catalog as
a function `String → Option ItemTemplate`, the accept call as a function
`String → Nat → σ → Bool × σ` on an abstract inventory state. -/

/-- Modelled from the spec: the `ItemTemplate` record of the missing catalog
module — "{id, displayName, description, maxStackSize, iconReference}".  Only
presence in the catalog matters to the theorems below. -/
structure ItemTemplate where
  id : String
  displayName : String
  description : String
  maxStackSize : Nat
  iconReference : String
  deriving DecidableEq, Repr

/-- The logical content of a `PickupData` record of the pickup manager
(the sprite handle and the cosmetic random `bobOffset` phase are visual
state and are not modelled). -/
structure PickupData where
  itemId : String
  quantity : Nat
  x : ℚ
  z : ℚ
  baseY : ℚ
  deriving DecidableEq, Repr

/-- An `ItemPickupSpawn` request. -/
structure SpawnReq where
  itemId : String
  quantity : Nat
  x : ℚ
  z : ℚ
  y : Option ℚ
  deriving DecidableEq, Repr

/-- The state owned by `ItemPickupManager`: the live pickup list, the scene
nodes it has added (each represented by its pickup record), and the running
animation clock. -/
structure PickupField where
  pickups : List PickupData
  scene : List PickupData
  animTime : ℚ
  deriving DecidableEq, Repr

/-- The capture radius (`pickupRadius = 0.75`). -/
def pickupRadius : ℚ := 3 / 4

/-- The capture test of the per-frame update.  The source computes
`Math.sqrt(dx*dx + dz*dz) < this.pickupRadius`; over the reals
`Real.sqrt m < r` with `r > 0` holds iff `m < r ^ 2`, so the squared
comparison below is the same predicate in exact arithmetic
(see `withinPickupRadius_iff_sqrt`). -/
def withinPickupRadius (px pz x z : ℚ) : Bool :=
  decide ((px - x) ^ 2 + (pz - z) ^ 2 < pickupRadius ^ 2)

/-- `ItemPickupManager.spawn`: look the item up in the catalog; when absent,
return immediately (no marker, no scene node); otherwise push a pickup whose
quantity is `Math.max(1, Math.floor(quantity))` and whose base height
defaults to 0.4, and add its sprite to the scene. -/
def spawn (catalog : String → Option ItemTemplate) (req : SpawnReq)
    (st : PickupField) : PickupField :=
  match catalog req.itemId with
  | none => st
  | some _ =>
      let p : PickupData :=
        { itemId := req.itemId, quantity := max 1 req.quantity,
          x := req.x, z := req.z, baseY := req.y.getD (2 / 5) }
      { st with pickups := st.pickups ++ [p], scene := st.scene ++ [p] }

/-- `ItemPickupManager.spawnMany`: spawn each entry in order. -/
def spawnMany (catalog : String → Option ItemTemplate) (reqs : List SpawnReq)
    (st : PickupField) : PickupField :=
  reqs.foldl (fun acc r => spawn catalog r acc) st

/-- `ItemPickupManager.getActiveCount()`. -/
def getActiveCount (st : PickupField) : Nat := st.pickups.length

/-- The pickup sweep of `ItemPickupManager.update`: the source iterates the
pickup array from the last index down to 0, so the recursion processes the
tail (the higher indices) before the head.  For each pickup it computes the
planar distance to the player; within the capture radius it calls
`inventory.tryAddById(p.itemId, p.quantity)` and splices the pickup out
exactly when that call returns true.  Besides the surviving pickups and the
threaded inventory state, the sweep records, in processing order, one trace
entry per pickup: `none` when no accept call was made (out of radius),
`some ok` when the accept call was made and returned `ok`. -/
def updateLoop {σ : Type} (tryAdd : String → Nat → σ → Bool × σ) (px pz : ℚ) :
    List PickupData → σ → List PickupData × σ × List (PickupData × Option Bool)
  | [], inv => ([], inv, [])
  | p :: rest, inv =>
      let u := updateLoop tryAdd px pz rest inv
      if withinPickupRadius px pz p.x p.z then
        let r := tryAdd p.itemId p.quantity u.2.1
        if r.1 then (u.1, r.2, u.2.2 ++ [(p, some true)])
        else (p :: u.1, r.2, u.2.2 ++ [(p, some false)])
      else (p :: u.1, u.2.1, u.2.2 ++ [(p, none)])

/-- `ItemPickupManager.update(dt, playerPos)`: advance the animation clock and
run the pickup sweep; every pickup removed from the field also has its scene
node removed.  (The bob/pulse writes to sprite position, scale and opacity are
visual and not modelled.) -/
def update {σ : Type} (tryAdd : String → Nat → σ → Bool × σ) (dt px pz : ℚ)
    (st : PickupField) (inv : σ) : PickupField × σ :=
  let u := updateLoop tryAdd px pz st.pickups inv
  let removed := (u.2.2.filter fun pr => pr.2 = some true).map Prod.fst
  ({ pickups := u.1,
     scene := removed.foldl (fun sc p => sc.erase p) st.scene,
     animTime := st.animTime + dt }, u.2.1)

/-- `ItemPickupManager.clear()`: remove every sprite from the scene and empty
the pickup list. -/
def clear (st : PickupField) : PickupField :=
  { st with
    scene := st.pickups.foldl (fun sc p => sc.erase p) st.scene,
    pickups := [] }

/-! ### Concrete sample data used to instantiate the theorems -/

/-- A one-entry catalog used as concrete sample data. -/
def sampleCatalog : String → Option ItemTemplate := fun s =>
  if s = "potion_health" then
    some { id := "potion_health", displayName := "Health Potion",
           description := "Restores 25 HP.", maxStackSize := 5,
           iconReference := "potion-icon" }
  else none

/-- An empty pickup field. -/
def emptyField : PickupField := { pickups := [], scene := [], animTime := 0 }

/-- A spawn request whose item id is absent from `sampleCatalog`. -/
def unknownReq : SpawnReq :=
  { itemId := "banana", quantity := 1, x := 0, z := 0, y := none }

/-- A spawn list mixing known and unknown item ids. -/
def sampleReqs : List SpawnReq :=
  [ { itemId := "potion_health", quantity := 2, x := 1, z := 1, y := none },
    { itemId := "banana", quantity := 1, x := 2, z := 2, y := none },
    { itemId := "potion_health", quantity := 1, x := 3, z := 3, y := some 1 } ]

end DungeonInv

namespace DungeonInv

/-! ### Basic facts about the catalog and the derived quantities -/

theorem ITEM_DEFINITIONS_type (t : ItemType) : (ITEM_DEFINITIONS t).type = t := by
  cases t <;> rfl

theorem ITEM_DEFINITIONS_maxStack_pos (t : ItemType) :
    1 ≤ (ITEM_DEFINITIONS t).maxStack := by
  cases t <;> decide

@[simp] theorem slotCountOf_none (t : ItemType) : slotCountOf t none = 0 := rfl

@[simp] theorem slotCountOf_some (t : ItemType) (it : InventoryItem) :
    slotCountOf t (some it) = if it.type = t then it.count else 0 := rfl

@[simp] theorem totalOf_nil (t : ItemType) : totalOf t [] = 0 := rfl

@[simp] theorem totalOf_cons (t : ItemType) (o : Option InventoryItem) (s : Inventory) :
    totalOf t (o :: s) = slotCountOf t o + totalOf t s := by
  simp [totalOf]

@[simp] theorem occupiedOf_nil (t : ItemType) : occupiedOf t [] = 0 := rfl

@[simp] theorem occupiedOf_cons (t : ItemType) (o : Option InventoryItem) (s : Inventory) :
    occupiedOf t (o :: s) =
      (match o with
       | none => 0
       | some it => if it.type = t then 1 else 0) + occupiedOf t s := by
  cases o with
  | none => simp [occupiedOf, List.countP_cons]
  | some it =>
      by_cases h : it.type = t
      · simp [occupiedOf, List.countP_cons, h]
        omega
      · simp [occupiedOf, List.countP_cons, h]

/-! ### Pass 1 (`stackPass`) -/

theorem stackPass_snd_le (t : ItemType) :
    ∀ (s : Inventory) (r : Nat), (stackPass t s r).2 ≤ r := by
  intro s
  induction s with
  | nil => intro r; simp [stackPass]
  | cons o rest ih =>
      intro r
      cases o with
      | none => simpa [stackPass] using ih r
      | some it =>
          by_cases h : it.type = t ∧ it.count < it.maxStack
          · simp only [stackPass, if_pos h]
            by_cases h0 : r - min (it.maxStack - it.count) r = 0
            · simp [h0]
            · simp only [if_neg h0]
              exact le_trans (ih _) (Nat.sub_le _ _)
          · simp only [stackPass, if_neg h]
            exact ih r

theorem stackPass_total_self (t : ItemType) :
    ∀ (s : Inventory) (r : Nat),
      totalOf t (stackPass t s r).1 + (stackPass t s r).2 = totalOf t s + r := by
  intro s
  induction s with
  | nil => intro r; simp [stackPass]
  | cons o rest ih =>
      intro r
      cases o with
      | none =>
          simp only [stackPass, totalOf_cons, slotCountOf_none]
          have := ih r
          omega
      | some it =>
          by_cases h : it.type = t ∧ it.count < it.maxStack
          · simp only [stackPass, if_pos h]
            have hmin : min (it.maxStack - it.count) r ≤ r := Nat.min_le_right _ _
            by_cases h0 : r - min (it.maxStack - it.count) r = 0
            · simp only [if_pos h0, totalOf_cons, slotCountOf_some, if_pos h.1]
              omega
            · simp only [if_neg h0, totalOf_cons, slotCountOf_some, if_pos h.1]
              have := ih (r - min (it.maxStack - it.count) r)
              omega
          · simp only [stackPass, if_neg h]
            simp only [totalOf_cons]
            have := ih r
            omega

theorem stackPass_total_other (t t' : ItemType) (hne : t' ≠ t) :
    ∀ (s : Inventory) (r : Nat),
      totalOf t' (stackPass t s r).1 = totalOf t' s := by
  intro s
  induction s with
  | nil => intro r; simp [stackPass]
  | cons o rest ih =>
      intro r
      cases o with
      | none => simp only [stackPass, totalOf_cons, slotCountOf_none, ih r]
      | some it =>
          by_cases h : it.type = t ∧ it.count < it.maxStack
          · have hty : ¬ it.type = t' := fun hc => hne (hc ▸ h.1.symm ▸ rfl)
            have hty' : ¬ ({ it with count := it.count + min (it.maxStack - it.count) r } :
                InventoryItem).type = t' := hty
            simp only [stackPass, if_pos h]
            by_cases h0 : r - min (it.maxStack - it.count) r = 0
            · simp only [if_pos h0, totalOf_cons, slotCountOf_some, if_neg hty', if_neg hty]
            · simp only [if_neg h0, totalOf_cons, slotCountOf_some, if_neg hty', if_neg hty,
                ih _]
          · simp only [stackPass, if_neg h, totalOf_cons]
            rw [ih r]

end DungeonInv

namespace DungeonInv

theorem slotBounds_bump (it : InventoryItem) (a : Nat) (hb : slotBounds (some it))
    (ha : a ≤ it.maxStack - it.count) :
    slotBounds (some { it with count := it.count + a }) := by
  obtain ⟨hdef, h1, h2⟩ := hb
  refine ⟨hdef, ?_, ?_⟩
  · show 1 ≤ it.count + a
    omega
  · show it.count + a ≤ it.maxStack
    omega

theorem stackPass_bounds (t : ItemType) :
    ∀ (s : Inventory) (r : Nat), (∀ o ∈ s, slotBounds o) →
      ∀ o ∈ (stackPass t s r).1, slotBounds o := by
  intro s
  induction s with
  | nil => intro r _ o ho; simp [stackPass] at ho
  | cons o0 rest ih =>
      intro r hs o ho
      have hhead : slotBounds o0 := hs o0 (by simp)
      have htail : ∀ o ∈ rest, slotBounds o := fun o' ho' => hs o' (by simp [ho'])
      cases o0 with
      | none =>
          simp only [stackPass, List.mem_cons] at ho
          rcases ho with h | h
          · subst h; trivial
          · exact ih r htail o h
      | some it =>
          by_cases h : it.type = t ∧ it.count < it.maxStack
          · have hb := slotBounds_bump it (min (it.maxStack - it.count) r) hhead
              (Nat.min_le_left _ _)
            simp only [stackPass, if_pos h] at ho
            by_cases h0 : r - min (it.maxStack - it.count) r = 0
            · simp only [if_pos h0, List.mem_cons] at ho
              rcases ho with h' | h'
              · subst h'; exact hb
              · exact htail o h'
            · simp only [if_neg h0, List.mem_cons] at ho
              rcases ho with h' | h'
              · subst h'; exact hb
              · exact ih _ htail o h'
          · simp only [stackPass, if_neg h, List.mem_cons] at ho
            rcases ho with h' | h'
            · subst h'; exact hhead
            · exact ih r htail o h'

theorem stackPass_replicate_none (t : ItemType) (n : Nat) (r : Nat) :
    stackPass t (List.replicate n none) r = (List.replicate n none, r) := by
  induction n with
  | zero => simp [stackPass]
  | succ k ih => simp [stackPass, List.replicate_succ, ih]

theorem stackPass_eq_of_saturated (t : ItemType) :
    ∀ (s : Inventory) (r : Nat),
      (∀ o ∈ s, ∀ it, o = some it → it.type = t → it.maxStack ≤ it.count) →
      stackPass t s r = (s, r) := by
  intro s
  induction s with
  | nil => intro r _; simp [stackPass]
  | cons o0 rest ih =>
      intro r hs
      have htail : ∀ o ∈ rest, ∀ it, o = some it → it.type = t → it.maxStack ≤ it.count :=
        fun o' ho' => hs o' (by simp [ho'])
      cases o0 with
      | none => simp [stackPass, ih r htail]
      | some it =>
          have hty : it.type = t → it.maxStack ≤ it.count :=
            hs (some it) (by simp) it rfl
          have h : ¬ (it.type = t ∧ it.count < it.maxStack) := by
            rintro ⟨h1, h2⟩; exact absurd (hty h1) (by omega)
          simp [stackPass, if_neg h, ih r htail]

theorem stackPass_sat_of_ne (t : ItemType) :
    ∀ (s : Inventory) (r : Nat), (stackPass t s r).2 ≠ 0 →
      ∀ o ∈ (stackPass t s r).1, ∀ it, o = some it → it.type = t →
        it.maxStack ≤ it.count := by
  intro s
  induction s with
  | nil => intro r _ o ho; simp [stackPass] at ho
  | cons o0 rest ih =>
      intro r hr o ho
      cases o0 with
      | none =>
          simp only [stackPass] at hr ho
          rcases List.mem_cons.mp ho with h' | h'
          · intro it h; simp [h'] at h
          · exact ih r hr o h'
      | some it0 =>
          by_cases h : it0.type = t ∧ it0.count < it0.maxStack
          · simp only [stackPass, if_pos h] at hr ho
            by_cases h0 : r - min (it0.maxStack - it0.count) r = 0
            · simp [h0] at hr
            · simp only [if_neg h0] at hr ho
              rcases List.mem_cons.mp ho with h' | h'
              · -- the topped-up head: the placed amount is the full free space
                intro it hit _
                have hadd : min (it0.maxStack - it0.count) r = it0.maxStack - it0.count := by
                  rcases Nat.le_total (it0.maxStack - it0.count) r with hle | hle
                  · exact Nat.min_eq_left hle
                  · exfalso; apply h0
                    have : min (it0.maxStack - it0.count) r = r := Nat.min_eq_right hle
                    omega
                rw [h'] at hit
                cases hit
                simp
                omega
              · exact ih _ hr o h' 
          · simp only [stackPass, if_neg h] at hr ho
            rcases List.mem_cons.mp ho with h' | h'
            · intro it hit hty
              rw [h'] at hit
              cases hit
              rcases not_and_or.mp h with hc | hc
              · exact absurd hty hc
              · omega
            · exact ih r hr o h'

end DungeonInv

namespace DungeonInv

/-! ### Pass 2 (`fillPass`) -/

@[simp] theorem mkStored_type (d : ItemDef) (c : Nat) : (mkStored d c).type = d.type := rfl

@[simp] theorem mkStored_count (d : ItemDef) (c : Nat) : (mkStored d c).count = c := rfl

@[simp] theorem mkStored_maxStack (d : ItemDef) (c : Nat) :
    (mkStored d c).maxStack = d.maxStack := rfl

theorem fillPass_snd_le (d : ItemDef) :
    ∀ (s : Inventory) (r : Nat), (fillPass d s r).2 ≤ r := by
  intro s
  induction s with
  | nil => intro r; simp [fillPass]
  | cons o rest ih =>
      intro r
      cases o with
      | some it => simpa [fillPass] using ih r
      | none =>
          simp only [fillPass]
          by_cases h0 : r - min d.maxStack r = 0
          · simp [h0]
          · simp only [if_neg h0]
            exact le_trans (ih _) (Nat.sub_le _ _)

theorem fillPass_total_self (d : ItemDef) :
    ∀ (s : Inventory) (r : Nat),
      totalOf d.type (fillPass d s r).1 + (fillPass d s r).2 =
        totalOf d.type s + r := by
  intro s
  induction s with
  | nil => intro r; simp [fillPass]
  | cons o rest ih =>
      intro r
      cases o with
      | some it =>
          simp only [fillPass, totalOf_cons]
          have := ih r
          omega
      | none =>
          have hmin : min d.maxStack r ≤ r := Nat.min_le_right _ _
          simp only [fillPass]
          by_cases h0 : r - min d.maxStack r = 0
          · simp only [if_pos h0, totalOf_cons, slotCountOf_some, mkStored_type,
              mkStored_count, slotCountOf_none, eq_self_iff_true, if_true]
            omega
          · simp only [if_neg h0, totalOf_cons, slotCountOf_some, mkStored_type,
              mkStored_count, slotCountOf_none, eq_self_iff_true, if_true]
            have := ih (r - min d.maxStack r)
            omega

theorem fillPass_total_other (d : ItemDef) (t' : ItemType) (hne : t' ≠ d.type) :
    ∀ (s : Inventory) (r : Nat),
      totalOf t' (fillPass d s r).1 = totalOf t' s := by
  intro s
  induction s with
  | nil => intro r; simp [fillPass]
  | cons o rest ih =>
      intro r
      cases o with
      | some it => simp only [fillPass, totalOf_cons, ih r]
      | none =>
          have hty : ¬ (mkStored d (min d.maxStack r)).type = t' := by
            simp [Ne.symm hne]
          simp only [fillPass]
          by_cases h0 : r - min d.maxStack r = 0
          · simp only [if_pos h0, totalOf_cons, slotCountOf_some, slotCountOf_none]
            rw [if_neg hty]
          · simp only [if_neg h0, totalOf_cons, slotCountOf_some, slotCountOf_none, ih _]
            rw [if_neg hty]

theorem fillPass_bounds (d : ItemDef)
    (hd : d.maxStack = (ITEM_DEFINITIONS d.type).maxStack) (hpos : 1 ≤ d.maxStack) :
    ∀ (s : Inventory) (r : Nat), 1 ≤ r → (∀ o ∈ s, slotBounds o) →
      ∀ o ∈ (fillPass d s r).1, slotBounds o := by
  intro s
  induction s with
  | nil => intro r _ _ o ho; simp [fillPass] at ho
  | cons o0 rest ih =>
      intro r hr hs o ho
      have hhead : slotBounds o0 := hs o0 (by simp)
      have htail : ∀ o ∈ rest, slotBounds o := fun o' ho' => hs o' (by simp [ho'])
      cases o0 with
      | some it =>
          simp only [fillPass, List.mem_cons] at ho
          rcases ho with h | h
          · subst h; exact hhead
          · exact ih r hr htail o h
      | none =>
          have hb : slotBounds (some (mkStored d (min d.maxStack r))) := by
            refine ⟨by simpa using hd, ?_, ?_⟩
            · show 1 ≤ min d.maxStack r
              omega
            · show min d.maxStack r ≤ d.maxStack
              omega
          simp only [fillPass, List.mem_cons] at ho
          by_cases h0 : r - min d.maxStack r = 0
          · simp only [if_pos h0, List.mem_cons] at ho
            rcases ho with h | h
            · subst h; exact hb
            · exact htail o h
          · simp only [if_neg h0, List.mem_cons] at ho
            rcases ho with h | h
            · subst h; exact hb
            · exact ih _ (by omega) htail o h

theorem fillPass_mem_of_ne (d : ItemDef) :
    ∀ (s : Inventory) (r : Nat), (fillPass d s r).2 ≠ 0 →
      ∀ o ∈ (fillPass d s r).1,
        (o ∈ s ∧ o ≠ none) ∨ o = some (mkStored d d.maxStack) := by
  intro s
  induction s with
  | nil => intro r _ o ho; simp [fillPass] at ho
  | cons o0 rest ih =>
      intro r hr o ho
      cases o0 with
      | some it =>
          simp only [fillPass] at hr ho
          rcases List.mem_cons.mp ho with h | h
          · exact Or.inl ⟨by simp [h], by simp [h]⟩
          · rcases ih r hr o h with ⟨hmem, hne⟩ | heq
            · exact Or.inl ⟨by simp [hmem], hne⟩
            · exact Or.inr heq
      | none =>
          simp only [fillPass] at hr ho
          by_cases h0 : r - min d.maxStack r = 0
          · simp [h0] at hr
          · simp only [if_neg h0] at hr ho
            have hadd : min d.maxStack r = d.maxStack := by
              rcases Nat.le_total d.maxStack r with hle | hle
              · exact Nat.min_eq_left hle
              · exfalso; apply h0
                have : min d.maxStack r = r := Nat.min_eq_right hle
                omega
            rcases List.mem_cons.mp ho with h | h
            · exact Or.inr (by rw [h, hadd])
            · rcases ih _ hr o h with ⟨hmem, hne⟩ | heq
              · exact Or.inl ⟨by simp [hmem], hne⟩
              · exact Or.inr heq

theorem fillPass_eq_of_occupied (d : ItemDef) :
    ∀ (s : Inventory) (r : Nat), (∀ o ∈ s, o ≠ none) →
      fillPass d s r = (s, r) := by
  intro s
  induction s with
  | nil => intro r _; simp [fillPass]
  | cons o0 rest ih =>
      intro r hs
      cases o0 with
      | none => exact absurd rfl (hs none (by simp))
      | some it =>
          have htail : ∀ o ∈ rest, o ≠ none := fun o' ho' => hs o' (by simp [ho'])
          simp [fillPass, ih r htail]

theorem fillPass_replicate_none (d : ItemDef) (hpos : 1 ≤ d.maxStack) :
    ∀ (n : Nat),
      fillPass d (List.replicate n none) (n * d.maxStack) =
        (List.replicate n (some (mkStored d d.maxStack)), 0) := by
  intro n
  induction n with
  | zero => simp [fillPass]
  | succ k ih =>
      have hle : d.maxStack ≤ (k + 1) * d.maxStack := by
        have : 1 * d.maxStack ≤ (k + 1) * d.maxStack :=
          Nat.mul_le_mul_right _ (by omega)
        omega
      have hmin : min d.maxStack ((k + 1) * d.maxStack) = d.maxStack :=
        Nat.min_eq_left hle
      have hsub : (k + 1) * d.maxStack - d.maxStack = k * d.maxStack := by
        have : (k + 1) * d.maxStack = k * d.maxStack + d.maxStack := by ring
        omega
      by_cases hk : k * d.maxStack = 0
      · have hk0 : k = 0 := by
          rcases Nat.mul_eq_zero.mp hk with h | h
          · exact h
          · omega
        subst hk0
        simp [fillPass, List.replicate_succ, hmin, hsub]
      · simp only [List.replicate_succ, fillPass, hmin, hsub, if_neg hk, ih]

/-! ### The two passes combined (`addItemCore` / `addItem`) -/

theorem addItemCore_snd_le (t : ItemType) (q : Nat) (s : Inventory) :
    (addItemCore t q s).2 ≤ q := by
  by_cases h : (stackPass t s q).2 > 0
  · simp only [addItemCore, if_pos h]
    exact le_trans (fillPass_snd_le _ _ _) (stackPass_snd_le t s q)
  · simp only [addItemCore, if_neg h]
    exact stackPass_snd_le t s q

theorem addItemCore_total_self (t : ItemType) (q : Nat) (s : Inventory) :
    totalOf t (addItemCore t q s).1 + (addItemCore t q s).2 = totalOf t s + q := by
  have h1 := stackPass_total_self t s q
  by_cases h : (stackPass t s q).2 > 0
  · have h2 := fillPass_total_self (ITEM_DEFINITIONS t) (stackPass t s q).1
      (stackPass t s q).2
    rw [ITEM_DEFINITIONS_type] at h2
    simp only [addItemCore, if_pos h]
    omega
  · simp only [addItemCore, if_neg h]
    omega

theorem addItemCore_total_other (t t' : ItemType) (hne : t' ≠ t) (q : Nat)
    (s : Inventory) :
    totalOf t' (addItemCore t q s).1 = totalOf t' s := by
  have h1 := stackPass_total_other t t' hne s q
  by_cases h : (stackPass t s q).2 > 0
  · have hne' : t' ≠ (ITEM_DEFINITIONS t).type := by
      rw [ITEM_DEFINITIONS_type]; exact hne
    have h2 := fillPass_total_other (ITEM_DEFINITIONS t) t' hne' (stackPass t s q).1
      (stackPass t s q).2
    simp only [addItemCore, if_pos h]
    omega
  · simp only [addItemCore, if_neg h]
    omega

theorem addItemCore_bounds (t : ItemType) (q : Nat) (s : Inventory)
    (hs : ∀ o ∈ s, slotBounds o) :
    ∀ o ∈ (addItemCore t q s).1, slotBounds o := by
  have hp1 := stackPass_bounds t s q hs
  by_cases h : (stackPass t s q).2 > 0
  · simp only [addItemCore, if_pos h]
    refine fillPass_bounds (ITEM_DEFINITIONS t) ?_ (ITEM_DEFINITIONS_maxStack_pos t)
      (stackPass t s q).1 (stackPass t s q).2 (by omega) hp1
    rw [ITEM_DEFINITIONS_type]
  · simp only [addItemCore, if_neg h]
    exact hp1

theorem addItemCore_saturated_of_ne (t : ItemType) (q : Nat) (s : Inventory)
    (h2 : (addItemCore t q s).2 ≠ 0) :
    saturatedFor t (addItemCore t q s).1 := by
  by_cases h : (stackPass t s q).2 > 0
  · have hcore : addItemCore t q s =
        fillPass (ITEM_DEFINITIONS t) (stackPass t s q).1 (stackPass t s q).2 := by
      simp only [addItemCore, if_pos h]
    rw [hcore] at h2 ⊢
    intro o ho
    rcases fillPass_mem_of_ne (ITEM_DEFINITIONS t) (stackPass t s q).1
        (stackPass t s q).2 h2 o ho with ⟨hmem, hnn⟩ | heq
    · cases o with
      | none => exact absurd rfl hnn
      | some it =>
          refine ⟨it, rfl, fun hty => ?_⟩
          exact stackPass_sat_of_ne t s q (by omega) (some it) hmem it rfl hty
    · refine ⟨mkStored (ITEM_DEFINITIONS t) (ITEM_DEFINITIONS t).maxStack, heq,
        fun _ => ?_⟩
      simp
  · have hcore : addItemCore t q s = stackPass t s q := by
      simp only [addItemCore, if_neg h]
    rw [hcore] at h2
    omega

theorem addItem_eq_of_saturated (t : ItemType) (q : Nat) (s : Inventory)
    (hsat : saturatedFor t s) :
    addItem t q s = (decide (q = 0), s) := by
  have hp1 : stackPass t s q = (s, q) := by
    refine stackPass_eq_of_saturated t s q ?_
    intro o ho it hit hty
    obtain ⟨it0, h0, hmax⟩ := hsat o ho
    rw [hit] at h0
    cases h0
    exact hmax hty
  have hocc : ∀ o ∈ s, o ≠ none := by
    intro o ho
    obtain ⟨it0, h0, _⟩ := hsat o ho
    simp [h0]
  by_cases hq : q = 0
  · subst hq
    simp [addItem, addItemCore, hp1]
  · have hfill := fillPass_eq_of_occupied (ITEM_DEFINITIONS t) s q hocc
    simp [addItem, addItemCore, hp1, hq, Nat.pos_of_ne_zero hq, hfill]

end DungeonInv

namespace DungeonInv

/-! ### Further helper lemmas -/

theorem stackPass_zero (t : ItemType) : ∀ s : Inventory, stackPass t s 0 = (s, 0) := by
  intro s
  induction s with
  | nil => rfl
  | cons o rest ih =>
      cases o with
      | none => simp [stackPass, ih]
      | some it =>
          by_cases h : it.type = t ∧ it.count < it.maxStack
          · simp [stackPass, if_pos h]
          · simp [stackPass, if_neg h, ih]

theorem isFull_replicate_full (cap : Nat) (t : ItemType) :
    isFull (fullStackedInv cap t) = true := by
  induction cap with
  | zero => rfl
  | succ k ih =>
      simp [isFull, fullStackedInv, List.replicate_succ, fullStackItem]

theorem saturatedFor_fullStackedInv (cap : Nat) (t t' : ItemType) :
    saturatedFor t' (fullStackedInv cap t) := by
  intro o ho
  have := List.eq_of_mem_replicate ho
  subst this
  exact ⟨fullStackItem t, rfl, fun _ => by simp [fullStackItem]⟩

theorem totalOf_le_occupied_mul (t : ItemType) :
    ∀ s : Inventory, (∀ o ∈ s, slotBounds o) →
      totalOf t s ≤ occupiedOf t s * (ITEM_DEFINITIONS t).maxStack := by
  intro s
  induction s with
  | nil => intro _; simp
  | cons o rest ih =>
      intro hs
      have htail := ih (fun o' ho' => hs o' (by simp [ho']))
      cases o with
      | none => simpa using htail
      | some it =>
          obtain ⟨hdef, h1, h2⟩ := hs (some it) (by simp)
          by_cases hty : it.type = t
          · subst hty
            have hcnt : it.count ≤ (ITEM_DEFINITIONS it.type).maxStack := hdef ▸ h2
            have hmul : (1 + occupiedOf it.type rest) * (ITEM_DEFINITIONS it.type).maxStack =
                (ITEM_DEFINITIONS it.type).maxStack +
                  occupiedOf it.type rest * (ITEM_DEFINITIONS it.type).maxStack := by
              ring
            simp only [totalOf_cons, slotCountOf_some, eq_self_iff_true, if_true,
              occupiedOf_cons]
            omega
          · simp only [totalOf_cons, slotCountOf_some, if_neg hty, occupiedOf_cons,
              zero_add]
            omega

@[simp] theorem requestedOf_nil (t : ItemType) : requestedOf t [] = 0 := rfl

@[simp] theorem requestedOf_cons (t : ItemType) (c : ItemType × Nat)
    (cs : List (ItemType × Nat)) :
    requestedOf t (c :: cs) = (if c.1 = t then c.2 else 0) + requestedOf t cs := by
  simp [requestedOf]

theorem runAdds_cons (c : ItemType × Nat) (cs : List (ItemType × Nat)) (s : Inventory) :
    runAdds (c :: cs) s = runAdds cs ((addItem c.1 c.2 s).2) := rfl

theorem addItem_snd_eq_core (t : ItemType) (q : Nat) (s : Inventory) :
    (addItem t q s).2 = (addItemCore t q s).1 := rfl

theorem runAdds_bounds_inv (calls : List (ItemType × Nat)) :
    ∀ (s : Inventory), (∀ o ∈ s, slotBounds o) →
      ∀ o ∈ runAdds calls s, slotBounds o := by
  induction calls with
  | nil => intro s hs; simpa [runAdds] using hs
  | cons c cs ih =>
      intro s hs
      rw [runAdds_cons]
      apply ih
      rw [addItem_snd_eq_core]
      exact addItemCore_bounds c.1 c.2 s hs

theorem emptyInventory_bounds : ∀ o ∈ emptyInventory, slotBounds o := by
  intro o ho
  have := List.eq_of_mem_replicate ho
  subst this
  trivial

theorem runAdds_total_le (t : ItemType) (calls : List (ItemType × Nat)) :
    ∀ s : Inventory, totalOf t (runAdds calls s) ≤ totalOf t s + requestedOf t calls := by
  induction calls with
  | nil => intro s; simp [runAdds]
  | cons c cs ih =>
      intro s
      have hstep : totalOf t ((addItem c.1 c.2 s).2) ≤
          totalOf t s + (if c.1 = t then c.2 else 0) := by
        rw [addItem_snd_eq_core]
        by_cases hct : c.1 = t
        · subst hct
          have h1 := addItemCore_total_self c.1 c.2 s
          simp only [eq_self_iff_true, if_true]
          omega
        · have hne : t ≠ c.1 := fun he => hct he.symm
          have h1 := addItemCore_total_other c.1 t hne c.2 s
          simp only [if_neg hct]
          omega
      have := ih ((addItem c.1 c.2 s).2)
      rw [runAdds_cons]
      simp only [requestedOf_cons]
      omega

end DungeonInv

namespace DungeonInv

/-! ### Claim theorems: the inventory store -/

/-- C1: for every known item type and every quantity >= 1, `addItem` places
the quantity by the two-pass algorithm embodied in `stackPass` / `fillPass`
(top up existing same-type slots in slot order, then fill empty slots in slot
order, each new slot taking up to the max stack size); the call returns true
if and only if the entire requested quantity was placed (the held total of
that type grew by exactly the requested quantity).  In particular, on the
capacity-10 inventory with potion max stack 5, the sequence
add(potion,1); add(potion,2); add(potion,3) returns true three times and
leaves slot0 = potion 5 and slot1 = potion 1. -/
theorem addItem_two_pass_success_iff :
    (∀ (t : ItemType) (q : Nat) (s : Inventory), 1 ≤ q →
      ((addItem t q s).1 = true ↔
        totalOf t (addItem t q s).2 = totalOf t s + q)) ∧
    addItem .potion 1 emptyInventory =
      (true, some (mkStored (ITEM_DEFINITIONS .potion) 1) :: List.replicate 9 none) ∧
    addItem .potion 2
        (some (mkStored (ITEM_DEFINITIONS .potion) 1) :: List.replicate 9 none) =
      (true, some (mkStored (ITEM_DEFINITIONS .potion) 3) :: List.replicate 9 none) ∧
    addItem .potion 3
        (some (mkStored (ITEM_DEFINITIONS .potion) 3) :: List.replicate 9 none) =
      (true, some (mkStored (ITEM_DEFINITIONS .potion) 5) ::
        some (mkStored (ITEM_DEFINITIONS .potion) 1) :: List.replicate 8 none) := by
  refine ⟨?_, by rfl, by rfl, by rfl⟩
  intro t q s _
  have htot := addItemCore_total_self t q s
  have hle := addItemCore_snd_le t q s
  simp only [addItem, decide_eq_true_eq]
  omega

/-- Witness for C1 at a concrete input. -/
theorem addItem_two_pass_success_iff_witness :
    (addItem .potion 2 emptyInventory).1 = true ↔
      totalOf .potion (addItem .potion 2 emptyInventory).2 =
        totalOf .potion emptyInventory + 2 :=
  addItem_two_pass_success_iff.1 .potion 2 emptyInventory (by decide)

/-- C2 counterexample: an add call that fails does NOT always leave the slot
state unchanged — adding 51 potions to the fresh empty inventory returns
false yet fills every slot. -/
theorem addItem_failed_changes_state_cex :
    (addItem .potion 51 emptyInventory).1 = false ∧
    (addItem .potion 51 emptyInventory).2 ≠ emptyInventory := by
  refine ⟨rfl, ?_⟩
  decide

/-- C2 amended: a failed add is best effort — when `addItem` returns false it
has placed as much as fits, so afterwards every slot is occupied and every
slot of the requested type is at its max stack; the slot state is unchanged
by the failed call if and only if it was already saturated for that type
before the call. -/
theorem addItem_failed_best_effort (t : ItemType) (q : Nat) (s : Inventory)
    (hfail : (addItem t q s).1 = false) :
    saturatedFor t (addItem t q s).2 ∧
      ((addItem t q s).2 = s ↔ saturatedFor t s) := by
  have hcore : (addItemCore t q s).2 ≠ 0 := by
    simp only [addItem] at hfail
    intro h0
    rw [h0] at hfail
    simp at hfail
  have hsat' : saturatedFor t (addItemCore t q s).1 :=
    addItemCore_saturated_of_ne t q s hcore
  refine ⟨hsat', ?_, ?_⟩
  · intro heq
    rw [addItem_snd_eq_core] at heq
    rw [← heq]
    exact hsat'
  · intro hsat
    have h := congrArg Prod.snd (addItem_eq_of_saturated t q s hsat)
    simpa using h

/-- Witness for the amended C2 at a concrete input. -/
theorem addItem_failed_best_effort_witness :
    saturatedFor .potion (addItem .potion 51 emptyInventory).2 ∧
      ((addItem .potion 51 emptyInventory).2 = emptyInventory ↔
        saturatedFor .potion emptyInventory) :=
  addItem_failed_best_effort .potion 51 emptyInventory rfl

/-- C4 counterexample: after adding exactly capacity × maxStack units of gold
(10 × 99 = 990) to the fresh empty inventory, `isFull` is true, yet a
subsequent add call of quantity 0 returns true, not false — so "any
subsequent add call of any quantity returns false" fails at quantity 0. -/
theorem full_inventory_zero_add_cex :
    (addItem .gold 990 emptyInventory).1 = true ∧
    isFull (addItem .gold 990 emptyInventory).2 = true ∧
    (addItem .gold 0 (addItem .gold 990 emptyInventory).2).1 = true := by
  exact ⟨rfl, rfl, rfl⟩

/-- C4 amended: for an inventory of capacity `cap` holding a single item type
with max stack size M: adding exactly cap × M units of that type to an
initially empty inventory succeeds and yields the fully stacked state,
`isFull` then returns true, and any subsequent add call of any quantity >= 1
(of any item type) returns false and leaves every slot unchanged. -/
theorem full_inventory_add_fails (cap : Nat) (t : ItemType) :
    addItem t (cap * (ITEM_DEFINITIONS t).maxStack) (List.replicate cap none) =
      (true, fullStackedInv cap t) ∧
    isFull (fullStackedInv cap t) = true ∧
    ∀ (t' : ItemType) (q : Nat), 1 ≤ q →
      addItem t' q (fullStackedInv cap t) = (false, fullStackedInv cap t) := by
  have hpos := ITEM_DEFINITIONS_maxStack_pos t
  refine ⟨?_, isFull_replicate_full cap t, ?_⟩
  · have hp1 := stackPass_replicate_none t cap (cap * (ITEM_DEFINITIONS t).maxStack)
    by_cases hcm : cap * (ITEM_DEFINITIONS t).maxStack = 0
    · have hcap : cap = 0 := by
        rcases Nat.mul_eq_zero.mp hcm with h | h
        · exact h
        · omega
      subst hcap
      simp [addItem, addItemCore, stackPass, fullStackedInv, hcm]
    · have hfill := fillPass_replicate_none (ITEM_DEFINITIONS t) hpos cap
      simp [addItem, addItemCore, hp1, Nat.pos_of_ne_zero hcm, hfill,
        fullStackedInv, fullStackItem]
  · intro t' q hq
    have h := addItem_eq_of_saturated t' q (fullStackedInv cap t)
      (saturatedFor_fullStackedInv cap t t')
    rw [h]
    have : decide (q = 0) = false := decide_eq_false (by omega)
    rw [this]

/-- Witness for the amended C4 at a concrete input. -/
theorem full_inventory_add_fails_witness :
    addItem .potion (2 * (ITEM_DEFINITIONS .potion).maxStack) (List.replicate 2 none) =
      (true, fullStackedInv 2 .potion) ∧
    isFull (fullStackedInv 2 .potion) = true ∧
    addItem .gold 1 (fullStackedInv 2 .potion) = (false, fullStackedInv 2 .potion) := by
  obtain ⟨h1, h2, h3⟩ := full_inventory_add_fails 2 .potion
  exact ⟨h1, h2, h3 .gold 1 (by decide)⟩

/-- C5: for every sequence of `addItem` calls with known item types and
quantities >= 1, starting from the empty inventory, every occupied slot
satisfies 1 <= count <= the maxStack of its item type (empty slots carry no
count at all in the model). -/
theorem runAdds_slot_bounds (calls : List (ItemType × Nat))
    (_hq : ∀ c ∈ calls, 1 ≤ c.2) :
    ∀ o ∈ runAdds calls emptyInventory, ∀ it, o = some it →
      1 ≤ it.count ∧ it.count ≤ (ITEM_DEFINITIONS it.type).maxStack := by
  intro o ho it hit
  have hb := runAdds_bounds_inv calls emptyInventory emptyInventory_bounds o ho
  rw [hit] at hb
  obtain ⟨hdef, h1, h2⟩ := hb
  exact ⟨h1, hdef ▸ h2⟩

/-- Witness for C5 at a concrete input. -/
theorem runAdds_slot_bounds_witness :
    (∀ c ∈ [(ItemType.potion, 3), (ItemType.key, 1), (ItemType.gold, 7)], 1 ≤ c.2) ∧
    (∀ o ∈ runAdds [(ItemType.potion, 3), (ItemType.key, 1), (ItemType.gold, 7)]
        emptyInventory,
      ∀ it, o = some it →
        1 ≤ it.count ∧ it.count ≤ (ITEM_DEFINITIONS it.type).maxStack) :=
  ⟨by decide, runAdds_slot_bounds _ (by decide)⟩

/-- C6: for all sequences of add calls starting from the empty inventory and
each item type, the held total of that type never exceeds the number of
occupied slots of that type times its max stack size, and never exceeds the
total quantity requested for it so far. -/
theorem runAdds_total_bounds (calls : List (ItemType × Nat)) (t : ItemType) :
    totalOf t (runAdds calls emptyInventory) ≤
      occupiedOf t (runAdds calls emptyInventory) * (ITEM_DEFINITIONS t).maxStack ∧
    totalOf t (runAdds calls emptyInventory) ≤ requestedOf t calls := by
  constructor
  · exact totalOf_le_occupied_mul t (runAdds calls emptyInventory)
      (runAdds_bounds_inv calls emptyInventory emptyInventory_bounds)
  · have h := runAdds_total_le t calls emptyInventory
    have hempty : totalOf t emptyInventory = 0 := rfl
    omega

/-- C7: `isFull()` returns true iff every slot is occupied and every occupied
slot has reached the max stack size of its item. -/
theorem isFull_iff_all_max (s : Inventory) :
    isFull s = true ↔ ∀ o ∈ s, ∃ it, o = some it ∧ it.maxStack ≤ it.count := by
  simp only [isFull, List.all_eq_true]
  constructor
  · intro h o ho
    have := h o ho
    cases o with
    | none => simp at this
    | some it => exact ⟨it, rfl, by simpa using this⟩
  · intro h o ho
    obtain ⟨it, hmem, hle⟩ := h o ho
    rw [hmem]
    simpa using hle

/-- C10: a zero-quantity add always returns true and leaves every slot
unchanged, for every known item type and every slot state. -/
theorem addItem_zero_quantity (t : ItemType) (s : Inventory) :
    addItem t 0 s = (true, s) := by
  have hp1 : stackPass t s 0 = (s, 0) := stackPass_zero t s
  simp [addItem, addItemCore, hp1]

end DungeonInv

namespace DungeonInv

/-! ### Claim theorems: unknown item identifiers on `addItem` -/

theorem lookupDef_none_str (id : String) (h : lookupDef id = none) :
    ∀ t : ItemType, t.str ≠ id := by
  intro t
  cases t <;> · intro he; simp [lookupDef, ItemType.str, ← he] at h

theorem stackPassRaw_eq_of_no_match (id : String)
    (hno : ∀ t : ItemType, t.str ≠ id) :
    ∀ (s : Inventory) (r : Nat), stackPassRaw id s r = (s, r) := by
  intro s
  induction s with
  | nil => intro r; rfl
  | cons o rest ih =>
      intro r
      cases o with
      | none => simp [stackPassRaw, ih]
      | some it =>
          have h : ¬ (it.type.str = id ∧ it.count < it.maxStack) := by
            rintro ⟨h1, _⟩
            exact hno it.type h1
          simp [stackPassRaw, if_neg h, ih]

theorem fillPassRaw_none_of_mem :
    ∀ (s : Inventory) (r : Nat), none ∈ s →
      fillPassRaw none s r = .error () := by
  intro s
  induction s with
  | nil => intro r h; simp at h
  | cons o rest ih =>
      intro r h
      cases o with
      | none => rfl
      | some it =>
          have h' : none ∈ rest := by simpa using h
          simp [fillPassRaw, ih r h']

theorem fillPassRaw_none_of_occupied :
    ∀ (s : Inventory) (r : Nat), (∀ o ∈ s, o ≠ none) →
      fillPassRaw none s r = .ok (s, r) := by
  intro s
  induction s with
  | nil => intro r _; rfl
  | cons o rest ih =>
      intro r hs
      cases o with
      | none => exact absurd rfl (hs none (by simp))
      | some it =>
          have htail : ∀ o ∈ rest, o ≠ none := fun o' ho' => hs o' (by simp [ho'])
          simp [fillPassRaw, ih r htail]

/-- C3 counterexample: calling the add operation with an identifier absent
from the catalog is not a safe no-op — on the fresh (all-null) inventory with
quantity 1 it throws (pass 2 reads maxStack of an undefined definition). -/
theorem addItemRaw_unknown_throws_cex :
    addItemRaw "banana" 1 emptyInventory = .error () := by rfl

/-- C3 amended: with an identifier absent from the catalog, pass 1 never
matches, so: a zero-quantity call returns true leaving every slot unchanged;
a call with quantity >= 1 returns false leaving every slot unchanged when no
empty slot exists, but throws a TypeError (modelled as `Except.error ()`)
as soon as the inventory has an empty slot. -/
theorem addItemRaw_unknown_behavior (id : String) (q : Nat) (s : Inventory)
    (hid : lookupDef id = none) :
    (q = 0 → addItemRaw id q s = .ok (true, s)) ∧
    (1 ≤ q →
      ((none ∈ s → addItemRaw id q s = .error ()) ∧
       (none ∉ s → addItemRaw id q s = .ok (false, s)))) := by
  have hno := lookupDef_none_str id hid
  have hp1 : stackPassRaw id s q = (s, q) := stackPassRaw_eq_of_no_match id hno s q
  constructor
  · intro hq0
    subst hq0
    simp [addItemRaw, hp1]
  · intro hq
    have hqpos : 0 < q := by omega
    constructor
    · intro hmem
      have hf := fillPassRaw_none_of_mem s q hmem
      simp [addItemRaw, hp1, hqpos, hid, hf]
    · intro hnmem
      have hocc : ∀ o ∈ s, o ≠ none := fun o ho he => hnmem (he ▸ ho)
      have hf := fillPassRaw_none_of_occupied s q hocc
      simp [addItemRaw, hp1, hqpos, hid, hf]
      omega

/-- Witness for the amended C3 at concrete inputs. -/
theorem addItemRaw_unknown_behavior_witness :
    addItemRaw "banana" 2 emptyInventory = .error () ∧
    addItemRaw "banana" 2 ([] : Inventory) = .ok (false, ([] : Inventory)) := by
  constructor
  · exact ((addItemRaw_unknown_behavior "banana" 2 emptyInventory rfl).2
      (by decide)).1 (by decide)
  · exact ((addItemRaw_unknown_behavior "banana" 2 ([] : Inventory) rfl).2
      (by decide)).2 (by simp)

end DungeonInv

namespace DungeonInv

/-! ### Claim theorems: the pickup field -/

/-- The squared capture comparison of `withinPickupRadius` agrees with the
square-root form written in the source
(`Math.sqrt(dx*dx + dz*dz) < pickupRadius`) over the reals. -/
theorem withinPickupRadius_iff_sqrt (px pz x z : ℚ) :
    withinPickupRadius px pz x z = true ↔
      Real.sqrt (((px - x) ^ 2 + (pz - z) ^ 2 : ℚ) : ℝ) <
        ((pickupRadius : ℚ) : ℝ) := by
  rw [withinPickupRadius, decide_eq_true_eq]
  have hr : (0 : ℝ) < ((pickupRadius : ℚ) : ℝ) := by
    rw [pickupRadius]
    norm_num
  rw [Real.sqrt_lt' hr]
  exact_mod_cast Iff.rfl

/-- C8: during one per-frame pickup sweep over arbitrary live markers, an
arbitrary inventory state and an arbitrary accept call:
(a) every marker is examined exactly once (the source iterates from the last
slot down to the first);
(b) the accept call is made for a marker exactly when the planar distance
from the player to the marker is below the capture radius;
(c) the surviving markers are exactly those whose trace entry is not a
successful accept — a marker is removed iff its accept call returned true,
and an out-of-radius or rejected marker stays (to be retried on later
sweeps);
(d) the final inventory state is the fold of the accept call, with each
marker's item id and quantity, over exactly the in-radius markers in
processing order. -/
theorem updateLoop_capture_spec {σ : Type} (tryAdd : String → Nat → σ → Bool × σ)
    (px pz : ℚ) (ms : List PickupData) (inv : σ) :
    ((updateLoop tryAdd px pz ms inv).2.2.map Prod.fst = ms.reverse) ∧
    (∀ pr ∈ (updateLoop tryAdd px pz ms inv).2.2,
      pr.2.isSome = withinPickupRadius px pz pr.1.x pr.1.z) ∧
    ((updateLoop tryAdd px pz ms inv).1 =
      (((updateLoop tryAdd px pz ms inv).2.2.filter
          fun pr => pr.2 ≠ some true).map Prod.fst).reverse) ∧
    ((updateLoop tryAdd px pz ms inv).2.1 =
      (ms.reverse.filter fun p => withinPickupRadius px pz p.x p.z).foldl
        (fun st p => (tryAdd p.itemId p.quantity st).2) inv) := by
  induction ms with
  | nil =>
      refine ⟨rfl, ?_, rfl, rfl⟩
      intro pr h
      simp [updateLoop] at h
  | cons p rest ih =>
      obtain ⟨ih1, ih2, ih3, ih4⟩ := ih
      by_cases hw : withinPickupRadius px pz p.x p.z = true
      · by_cases hok :
            (tryAdd p.itemId p.quantity (updateLoop tryAdd px pz rest inv).2.1).1 = true
        · have hdef : updateLoop tryAdd px pz (p :: rest) inv =
              ((updateLoop tryAdd px pz rest inv).1,
               (tryAdd p.itemId p.quantity (updateLoop tryAdd px pz rest inv).2.1).2,
               (updateLoop tryAdd px pz rest inv).2.2 ++ [(p, some true)]) := by
            simp [updateLoop, hw, hok]
          refine ⟨?_, ?_, ?_, ?_⟩
          · simp [hdef, ih1]
          · intro pr hpr
            rw [hdef] at hpr
            simp only [List.mem_append, List.mem_singleton] at hpr
            rcases hpr with h | h
            · exact ih2 pr h
            · subst h
              simpa using hw.symm
          · rw [hdef]
            simp [List.filter_append, List.map_append, List.reverse_append, ih3]
          · rw [hdef]
            simp [List.reverse_cons, List.filter_append, List.foldl_append, hw, ih4]
        · have hdef : updateLoop tryAdd px pz (p :: rest) inv =
              (p :: (updateLoop tryAdd px pz rest inv).1,
               (tryAdd p.itemId p.quantity (updateLoop tryAdd px pz rest inv).2.1).2,
               (updateLoop tryAdd px pz rest inv).2.2 ++ [(p, some false)]) := by
            simp [updateLoop, hw, hok]
          refine ⟨?_, ?_, ?_, ?_⟩
          · simp [hdef, ih1]
          · intro pr hpr
            rw [hdef] at hpr
            simp only [List.mem_append, List.mem_singleton] at hpr
            rcases hpr with h | h
            · exact ih2 pr h
            · subst h
              simpa using hw.symm
          · rw [hdef]
            simp [List.filter_append, List.map_append, List.reverse_append, ih3]
          · rw [hdef]
            simp [List.reverse_cons, List.filter_append, List.foldl_append, hw, ih4]
      · have hdef : updateLoop tryAdd px pz (p :: rest) inv =
            (p :: (updateLoop tryAdd px pz rest inv).1,
             (updateLoop tryAdd px pz rest inv).2.1,
             (updateLoop tryAdd px pz rest inv).2.2 ++ [(p, none)]) := by
          simp [updateLoop, hw]
        refine ⟨?_, ?_, ?_, ?_⟩
        · simp [hdef, ih1]
        · intro pr hpr
          rw [hdef] at hpr
          simp only [List.mem_append, List.mem_singleton] at hpr
          rcases hpr with h | h
          · exact ih2 pr h
          · subst h
            simp [hw]
        · rw [hdef]
          simp [List.filter_append, List.map_append, List.reverse_append, ih3]
        · rw [hdef]
          simp [List.reverse_cons, List.filter_append, List.foldl_append, hw, ih4]

/-- C9: spawning a pickup whose item id is absent from the catalog is a
no-op: no marker is created, nothing is added to the scene, the active count
is unchanged (and nothing can throw, the model being a total function);
spawning a list of entries ignores exactly the entries whose item id is
absent from the catalog. -/
theorem spawn_unknown_ignored (catalog : String → Option ItemTemplate)
    (st : PickupField) (req : SpawnReq) (reqs : List SpawnReq) :
    (catalog req.itemId = none →
      spawn catalog req st = st ∧
      getActiveCount (spawn catalog req st) = getActiveCount st) ∧
    spawnMany catalog reqs st =
      spawnMany catalog (reqs.filter fun r => (catalog r.itemId).isSome) st := by
  constructor
  · intro h
    have hs : spawn catalog req st = st := by simp [spawn, h]
    exact ⟨hs, by rw [hs]⟩
  · induction reqs generalizing st with
    | nil => rfl
    | cons r rs ih =>
        have hstep : spawnMany catalog (r :: rs) st =
            spawnMany catalog rs (spawn catalog r st) := rfl
        by_cases h : (catalog r.itemId).isSome
        · have hfil : (r :: rs).filter (fun r' => (catalog r'.itemId).isSome) =
              r :: rs.filter (fun r' => (catalog r'.itemId).isSome) := by
            simp [List.filter_cons, h]
          rw [hstep, hfil]
          have hstep2 :
              spawnMany catalog (r :: rs.filter fun r' => (catalog r'.itemId).isSome) st =
              spawnMany catalog (rs.filter fun r' => (catalog r'.itemId).isSome)
                (spawn catalog r st) := rfl
          rw [hstep2]
          exact ih (spawn catalog r st)
        · have hnone : catalog r.itemId = none := by
            cases hc : catalog r.itemId
            · rfl
            · rw [hc] at h; simp at h
          have hsp : spawn catalog r st = st := by simp [spawn, hnone]
          have hfil : (r :: rs).filter (fun r' => (catalog r'.itemId).isSome) =
              rs.filter (fun r' => (catalog r'.itemId).isSome) := by
            simp [List.filter_cons, h]
          rw [hstep, hsp, hfil]
          exact ih st

/-- Witness for C9 at concrete inputs. -/
theorem spawn_unknown_ignored_witness :
    (spawn sampleCatalog unknownReq emptyField = emptyField ∧
      getActiveCount (spawn sampleCatalog unknownReq emptyField) =
        getActiveCount emptyField) ∧
    spawnMany sampleCatalog sampleReqs emptyField =
      spawnMany sampleCatalog
        (sampleReqs.filter fun r => (sampleCatalog r.itemId).isSome) emptyField :=
  ⟨(spawn_unknown_ignored sampleCatalog emptyField unknownReq sampleReqs).1 rfl,
   (spawn_unknown_ignored sampleCatalog emptyField unknownReq sampleReqs).2⟩

end DungeonInv
